import Mathlib

/-!
Verification of the UPI payment QR service (`app/services/upi_validator.py`,
`app/services/qr_generator.py`) against its natural-language specification.

Modelling conventions:
* Python strings are modelled as `List Char`; the helper functions below
  (`splitOnceChar`, `splitAllChar`, …) model the exact Python string
  operations used by the source (`str.split` with and without maxsplit,
  `str.replace`, `str.startswith`).
* Python `float` amounts are modelled as exact rationals `ℚ`.  `round(x, 2)`
  is modelled as decimal round-half-even (`pyRound2`), `float(s)` as a plain
  decimal-literal parser (`parseDec`), and `str(x)` — for the values accepted
  by `validate_amount`, i.e. exact hundredths — as the shortest decimal
  rendering with at least one fractional digit (`floatStr`).
* Python dicts built by repeated assignment are modelled as association
  lists where the last binding of a key wins (`pyDictGet`).
-/

/-- Character class of the regex localpart `[a-zA-Z0-9._-]`
    (from `UPI_ID_PATTERN` in `upi_validator.py`). -/
def isLocalChar (c : Char) : Bool :=
  (('a' ≤ c && c ≤ 'z') || ('A' ≤ c && c ≤ 'Z') || ('0' ≤ c && c ≤ '9')
    || c = '.' || c = '_' || c = '-')

/-- Character class of the regex domain `[a-zA-Z0-9.-]`. -/
def isDomainChar (c : Char) : Bool :=
  (('a' ≤ c && c ≤ 'z') || ('A' ≤ c && c ≤ 'Z') || ('0' ≤ c && c ≤ '9')
    || c = '.' || c = '-')

/-- Split at the first occurrence of `c` (Python `s.split(c, 1)` when it
    has two parts); `none` when `c` does not occur. -/
def splitOnceChar (c : Char) : List Char → Option (List Char × List Char)
  | [] => none
  | x :: rest =>
    if x = c then some ([], rest)
    else (splitOnceChar c rest).map (fun p => (x :: p.1, p.2))

/-- Python `s.split(c)` (single-character separator, no maxsplit).
    Always returns at least one piece; splitting on each occurrence. -/
def splitAllChar (c : Char) : List Char → List (List Char)
  | [] => [[]]
  | x :: rest =>
    if x = c then [] :: splitAllChar c rest
    else
      match splitAllChar c rest with
      | [] => [[x]]
      | r :: rs => (x :: r) :: rs

/-- Python `s.startswith(p)`: `startsWithL p s` is true when `p` is a
    prefix of `s`. -/
def startsWithL : List Char → List Char → Bool
  | [], _ => true
  | _ :: _, [] => false
  | p :: ps, c :: cs => p = c && startsWithL ps cs

/-- Python dict lookup where the dict was built by assigning each pair in
    order (later assignments overwrite earlier ones): the LAST binding of
    `k` wins. -/
def pyDictGet (k : List Char) (l : List (List Char × List Char)) : Option (List Char) :=
  l.foldl (fun acc kv => if kv.1 = k then some kv.2 else acc) none

/-- Python `note.replace(' ', '%20')` from `create_upi_string`. -/
def encodeSp (s : List Char) : List Char :=
  s.flatMap (fun c => if c = ' ' then ['%', '2', '0'] else [c])

/-- Python `v.replace('%20', ' ')` from `parse_upi_string`: leftmost,
    non-overlapping replacement of the three-character pattern. -/
def decodePct (s : List Char) : List Char :=
  match s with
  | [] => []
  | c :: rest =>
    if c = '%' ∧ rest.take 2 = ['2', '0'] then ' ' :: decodePct (rest.drop 2)
    else c :: decodePct rest
termination_by s.length
decreasing_by
  · simp only [List.length_cons, List.length_drop]
    omega
  · simp only [List.length_cons]
    omega

/-- Whether `"%20"` occurs as a substring (at any position). -/
def hasPct : List Char → Bool
  | [] => false
  | c :: rest => (decide (c = '%') && decide (rest.take 2 = ['2', '0'])) || hasPct rest

/-- Decimal digits of `n`, most significant first (non-empty; `0 ↦ "0"`). -/
def natDigits (n : Nat) : List Char :=
  if h : n < 10 then [Char.ofNat (48 + n)]
  else natDigits (n / 10) ++ [Char.ofNat (48 + n % 10)]
termination_by n
decreasing_by
  exact Nat.div_lt_self (by omega) (by omega)

/-- Value of a digit string (no validity check; used under an
    all-digits guard). -/
def digitsValCore (l : List Char) : Nat :=
  l.foldl (fun a c => a * 10 + (c.toNat - 48)) 0

/-- Unsigned part of `parseDec`. -/
def parseDecNN (s : List Char) : Option ℚ :=
  match splitOnceChar '.' s with
  | none =>
    if s ≠ [] && s.all Char.isDigit then some (digitsValCore s) else none
  | some (ip, fp) =>
    if (ip ++ fp) ≠ [] && ip.all Char.isDigit && fp.all Char.isDigit then
      some ((digitsValCore ip : ℚ) + (digitsValCore fp : ℚ) / (10 : ℚ) ^ fp.length)
    else none

/-- Model of Python `float(s)` restricted to plain decimal literals
    `[+-]? digits [. digits]` with at least one digit (the only float
    syntax the verified properties exercise); `none` models the
    `ValueError` raised on anything unparseable. -/
def parseDec (s : List Char) : Option ℚ :=
  match s with
  | [] => parseDecNN []
  | c :: rest =>
    if c = '+' then parseDecNN rest
    else if c = '-' then (parseDecNN rest).map (fun q => -q)
    else parseDecNN (c :: rest)

/-- Round-half-even to an integer, the rounding Python's `round` uses. -/
def roundHalfEven (x : ℚ) : ℤ :=
  let f := ⌊x⌋
  let r := x - (f : ℚ)
  if r < 1 / 2 then f
  else if 1 / 2 < r then f + 1
  else if f % 2 = 0 then f else f + 1

/-- Model of Python `round(x, 2)`: round-half-even at two decimal places
    (the source's floats are modelled as exact decimals). -/
def pyRound2 (x : ℚ) : ℚ :=
  (roundHalfEven (x * 100) : ℚ) / 100

/-- Model of Python `str(x)` for a non-negative float that is an exact
    hundredth (every amount accepted by `validate_amount`): the shortest
    decimal form with at least one fractional digit, exactly what CPython's
    shortest-roundtrip `repr` prints for such values.  Rationals that are
    not exact hundredths do not correspond to such floats; they take the
    final catch-all branch, which no theorem relies on. -/
def floatStrNN (q : ℚ) : List Char :=
  let c := q * 100
  if c.den = 1 then
    let m := c.num.toNat
    let ip := m / 100
    let fr := m % 100
    if fr = 0 then natDigits ip ++ ['.', '0']
    else if fr % 10 = 0 then natDigits ip ++ '.' :: natDigits (fr / 10)
    else if fr < 10 then natDigits ip ++ '.' :: '0' :: natDigits fr
    else natDigits ip ++ '.' :: natDigits fr
  else natDigits (q * 100).num.toNat ++ ['.', '0']

/-- Model of Python `str(x)` for a float amount (signed wrapper). -/
def floatStr (q : ℚ) : List Char :=
  if q < 0 then '-' :: floatStrNN (-q) else floatStrNN q

/-! ## `app/services/upi_validator.py` -/

/-- The body of `UPI_ID_PATTERN` without the `$` anchor's newline
    tolerance: one `@` separating a non-empty localpart over `isLocalChar`
    from a non-empty domain over `isDomainChar` (neither class contains
    `@`, so matching the first `@` is exact). -/
def upiIdPatternCore (s : List Char) : Bool :=
  match splitOnceChar '@' s with
  | none => false
  | some (u, d) => !u.isEmpty && !d.isEmpty && u.all isLocalChar && d.all isDomainChar

/-- `UPI_ID_PATTERN.match(s)` for
    `UPI_ID_PATTERN = re.compile(r'^[a-zA-Z0-9._-]+@[a-zA-Z0-9.-]+$')`:
    in Python (without `re.MULTILINE`) the `$` anchor matches at the end of
    the string OR just before one trailing newline, so the pattern accepts
    both the bare grammar and the grammar followed by a single final
    newline character. -/
def upiIdPatternMatch (s : List Char) : Bool :=
  upiIdPatternCore s ||
    (decide (s.getLast? = some '\n') && upiIdPatternCore s.dropLast)

/-- `UPIValidator.validate_upi_id`.  The known-provider check in the source
    only logs a warning (its `return False` is commented out), so it does
    not affect the result. -/
def validate_upi_id (upi_id : List Char) : Bool :=
  if upi_id.isEmpty then false
  else if !upiIdPatternMatch upi_id then false
  else
    let parts := splitAllChar '@' upi_id
    if parts.length ≠ 2 then false
    else if (parts.headD []).length < 3 then false
    else true

/-- `UPIValidator.validate_amount` (floats modelled as exact rationals). -/
def validate_amount (amount : Option ℚ) : Bool :=
  match amount with
  | none => true
  | some a =>
    if a < 0 then false
    else if a > 1000000 then false
    else if pyRound2 a ≠ a then false
    else true

/-- Python truthiness of an optional float (`if amount:`). -/
def pyTruthyQ (a : Option ℚ) : Bool :=
  match a with
  | none => false
  | some q => q ≠ 0

/-- Python truthiness of an optional string (`if transaction_note:`). -/
def pyTruthyS (s : Option (List Char)) : Bool :=
  match s with
  | none => false
  | some l => !l.isEmpty

/-- `UPIValidator.create_upi_string`. -/
def create_upi_string (payee_address payee_name : List Char)
    (amount : Option ℚ) (transaction_note transaction_ref : Option (List Char)) :
    List Char :=
  let s := ("upi://pay?pa=".toList ++ payee_address) ++ ("&pn=".toList ++ payee_name)
  let s := if pyTruthyQ amount then s ++ ("&am=".toList ++ floatStr ((amount.getD 0))) else s
  let s := if pyTruthyS transaction_note then
    s ++ ("&tn=".toList ++ encodeSp ((transaction_note.getD []))) else s
  let s := if pyTruthyS transaction_ref then
    s ++ ("&tr=".toList ++ (transaction_ref.getD [])) else s
  s

/-- Result dictionary of `parse_upi_string` (the six keys it always sets). -/
structure ParsedUPI where
  payee_address : List Char
  payee_name : List Char
  amount : Option ℚ
  transaction_note : List Char
  transaction_ref : List Char
  currency : List Char
deriving DecidableEq, Repr

/-- The `params` dict of `parse_upi_string`: split the part after the first
    `?` on `&`, and keep `key = value-after-first-=` for each piece that
    contains `=` (later occurrences of a key overwrite earlier ones, which
    `pyDictGet` accounts for). -/
def extractParams (s : List Char) : List (List Char × List Char) :=
  let query := ((splitOnceChar '?' s).map Prod.snd).getD []
  (splitAllChar '&' query).foldl
    (fun acc p =>
      match splitOnceChar '=' p with
      | some (k, v) => acc ++ [(k, v)]
      | none => acc) []

/-- Builds the result dict of `parse_upi_string` from `params` and the
    already-converted amount. -/
def mkParsed (params : List (List Char × List Char)) (amount : Option ℚ) : ParsedUPI :=
  { payee_address := (pyDictGet "pa".toList params).getD []
    payee_name := (pyDictGet "pn".toList params).getD []
    amount := amount
    transaction_note := decodePct ((pyDictGet "tn".toList params).getD [])
    transaction_ref := (pyDictGet "tr".toList params).getD []
    currency := (pyDictGet "cu".toList params).getD "INR".toList }

/-- `UPIValidator.parse_upi_string`.  `none` models the empty dict `{}`,
    returned both when the prefix check fails and when the body raises
    (the only possible raise is `float(params.get('am'))` on a truthy,
    unparseable `am` value; the `try/except` turns it into `{}`). -/
def parse_upi_string (upi_string : List Char) : Option ParsedUPI :=
  if !startsWithL "upi://pay?".toList upi_string then none
  else
    let params := extractParams upi_string
    match pyDictGet "am".toList params with
    | some v =>
      if !v.isEmpty then
        match parseDec v with
        | some q => some (mkParsed params (some q))
        | none => none
      else some (mkParsed params none)
    | none => some (mkParsed params none)

/-! ## `app/services/qr_generator.py`

The raster content of a PIL image is external to this development; an image
is modelled by its pixel dimensions together with the ordered trace of
styling operations applied to it.  Each PIL call the source makes either
succeeds (appending its tag and setting dimensions exactly as the source
does) or raises; which calls raise is environmental (network, decoder, …)
and is modelled by explicit failure flags in `PILEnv`. -/

/-- Tags for the styling operations of the pipeline, in the trace order
    they are applied. -/
inductive StageTag where
  | resizeTo (w h : Nat)
  | logo
  | roundedMask
  | circleMask
  | diamondMask
  | gradient
deriving DecidableEq, Repr

/-- Abstraction of a PIL image: pixel dimensions plus the trace of applied
    styling operations. -/
structure PILImage where
  width : Nat
  height : Nat
  ops : List StageTag
deriving DecidableEq, Repr

/-- `QRCodeStyle` dataclass (fields used by `_generate_standard_qr`;
    colors and output format do not affect the verified properties'
    observables and are kept as opaque strings). -/
structure QRCodeStyle where
  size : Nat := 300
  border : Nat := 4
  box_size : Nat := 10
  fill_color : String := "black"
  back_color : String := "white"
  logo_url : Option String := none
  logo_path : Option String := none
  logo_size_ratio : ℚ := 3 / 10
  style : String := "square"
  gradient : Bool := false
  format : String := "png"

/-- Environmental nondeterminism of one `_generate_standard_qr` run:
    how many modules the fitted QR symbol has for the given data, and
    which best-effort PIL/network operations raise. -/
structure PILEnv where
  modules : Nat
  encodeFail : Bool
  logoFail : Bool
  maskFail : Bool
  gradFail : Bool

/-- `img.resize((style.size, style.size), LANCZOS)`. -/
def pilResize (w h : Nat) (img : PILImage) : PILImage :=
  { width := w, height := h, ops := img.ops ++ [.resizeTo w h] }

/-- `_add_logo`: its whole body is inside `try/except`, which logs a
    warning and returns the incoming image when anything (download,
    decode, …) raises; on success the compositing pastes in place, so
    dimensions are unchanged and a `logo` tag is recorded. -/
def add_logo (fail : Bool) (img : PILImage) : PILImage :=
  if fail then img
  else { width := img.width, height := img.height, ops := img.ops ++ [.logo] }

/-- `_apply_rounded_corners`: `try` body masks and flattens onto a
    background created at the same size; `except` returns the incoming
    image. -/
def apply_rounded_corners (fail : Bool) (img : PILImage) : PILImage :=
  if fail then img
  else { width := img.width, height := img.height, ops := img.ops ++ [.roundedMask] }

/-- `_apply_circle_shape` (same try/except shape as rounded corners). -/
def apply_circle_shape (fail : Bool) (img : PILImage) : PILImage :=
  if fail then img
  else { width := img.width, height := img.height, ops := img.ops ++ [.circleMask] }

/-- `_apply_diamond_shape` (same try/except shape). -/
def apply_diamond_shape (fail : Bool) (img : PILImage) : PILImage :=
  if fail then img
  else { width := img.width, height := img.height, ops := img.ops ++ [.diamondMask] }

/-- `_apply_gradient`: builds a gradient overlay at the image's own size
    and blends at weight 0.3; `except` returns the incoming image. -/
def apply_gradient (fail : Bool) (img : PILImage) : PILImage :=
  if fail then img
  else { width := img.width, height := img.height, ops := img.ops ++ [.gradient] }

/-- `_generate_standard_qr`: build the native bitmap at
    `(modules + 2*border) * box_size` pixels, resize to
    `(style.size, style.size)`, then logo (if requested), then shape
    mask (by `style.style`), then gradient (if requested).
    `env.encodeFail` models the `qrcode` library raising while fitting /
    rendering the symbol, which the function re-raises. -/
def generate_standard_qr (env : PILEnv) (style : QRCodeStyle) :
    Except Nat PILImage :=
  if env.encodeFail then .error 500
  else
    let native := (env.modules + 2 * style.border) * style.box_size
    let qr_img : PILImage := { width := native, height := native, ops := [] }
    let qr_img := pilResize style.size style.size qr_img
    let qr_img :=
      if style.logo_url.isSome || style.logo_path.isSome then
        add_logo env.logoFail qr_img
      else qr_img
    let qr_img :=
      if style.style = "rounded" then apply_rounded_corners env.maskFail qr_img
      else if style.style = "circle" then apply_circle_shape env.maskFail qr_img
      else if style.style = "diamond" then apply_diamond_shape env.maskFail qr_img
      else qr_img
    let qr_img := if style.gradient then apply_gradient env.gradFail qr_img else qr_img
    .ok qr_img

/-- `generate_qr_code`: delegates to `_generate_standard_qr`, turning any
    raise into an HTTP 500. -/
def generate_qr_code (env : PILEnv) (style : QRCodeStyle) : Except Nat PILImage :=
  generate_standard_qr env style

/-- Relevant settings from `app/config.py`. -/
def MAX_LOGO_SIZE_MB : Nat := 5

/-- `ALLOWED_LOGO_EXTENSIONS` from `app/config.py`. -/
def ALLOWED_LOGO_EXTENSIONS : List (List Char) :=
  [".png".toList, ".jpg".toList, ".jpeg".toList, ".gif".toList]

/-- The upload object handed to `save_uploaded_logo`: declared
    content-type, filename, and the byte length of the content read. -/
structure UploadFileM where
  content_type : List Char
  filename : List Char
  content_len : Nat
deriving DecidableEq, Repr

/-- `os.path.splitext(...)[1].lower()`: the (lowercased) extension —
    everything from the last dot of the final component on, with a
    dot-only prefix not counting as an extension. -/
def splitextExtLower (name : List Char) : List Char :=
  let rev := name.reverse
  let base := rev.takeWhile (fun c => c ≠ '.')
  if base.length = rev.length then []
  else if (rev.drop base.length).all (fun c => c = '.') then []
  else ('.' :: base.reverse).map Char.toLower

/-- The `try` body of `save_uploaded_logo`: the three validations, each
    raising `HTTPException(400, …)` (modelled as `.error`), then the
    content wrapped as an in-memory buffer (modelled by its length). -/
def saveUploadedLogoBody (f : UploadFileM) : Except (Nat × List Char) Nat :=
  if !startsWithL "image/".toList f.content_type then
    .error (400, "File must be an image".toList)
  else if f.content_len > MAX_LOGO_SIZE_MB * 1024 * 1024 then
    .error (400, "Logo file too large".toList)
  else if !ALLOWED_LOGO_EXTENSIONS.contains (splitextExtLower f.filename) then
    .error (400, "Unsupported file format".toList)
  else .ok f.content_len

/-- `save_uploaded_logo`: the body above runs inside
    `try: … except Exception as e: logger.warning(…); return None` —
    and `HTTPException` IS an `Exception`, so every `.error` of the body
    (including the three validation raises) is swallowed into `none`. -/
def save_uploaded_logo (f : UploadFileM) : Option Nat :=
  match saveUploadedLogoBody f with
  | .ok buf => some buf
  | .error _ => none

/-! ## Lemmas about the string-operation models -/

theorem splitOnceChar_of_not_mem (c : Char) (s : List Char) (h : c ∉ s) :
    splitOnceChar c s = none := by
  induction s with
  | nil => rfl
  | cons x r ih =>
    have hp : c ≠ x ∧ c ∉ r := by simpa [not_or] using h
    have hxc : ¬ x = c := fun hh => hp.1 hh.symm
    simp [splitOnceChar, hxc, ih hp.2]

theorem splitOnceChar_append (c : Char) (xs ys : List Char) (h : c ∉ xs) :
    splitOnceChar c (xs ++ c :: ys) = some (xs, ys) := by
  induction xs with
  | nil => simp [splitOnceChar]
  | cons x r ih =>
    have hp : c ≠ x ∧ c ∉ r := by simpa [not_or] using h
    have hxc : ¬ x = c := fun hh => hp.1 hh.symm
    simp [splitOnceChar, hxc, ih hp.2]

theorem splitOnceChar_eq_some (c : Char) (s l r : List Char)
    (h : splitOnceChar c s = some (l, r)) : s = l ++ c :: r ∧ c ∉ l := by
  induction s generalizing l r with
  | nil => simp [splitOnceChar] at h
  | cons x t ih =>
    by_cases hx : x = c
    · simp only [splitOnceChar, hx, if_true, Option.some.injEq, Prod.mk.injEq] at h
      obtain ⟨h1, h2⟩ := h
      subst h1; subst h2
      simp [hx]
    · simp only [splitOnceChar, hx, if_false, Option.map_eq_some'] at h
      obtain ⟨⟨l1, r1⟩, hp, he⟩ := h
      obtain ⟨hs, hnm⟩ := ih l1 r1 hp
      simp only [Prod.mk.injEq] at he
      obtain ⟨he1, he2⟩ := he
      subst he1; subst he2
      refine ⟨by rw [hs]; rfl, ?_⟩
      simp only [List.mem_cons, not_or]
      exact ⟨fun hcx => hx hcx.symm, hnm⟩

theorem splitAllChar_ne_nil (c : Char) (s : List Char) : splitAllChar c s ≠ [] := by
  cases s with
  | nil => simp [splitAllChar]
  | cons x r =>
    by_cases hx : x = c
    · simp [splitAllChar, hx]
    · simp only [splitAllChar, hx, if_false]
      cases splitAllChar c r <;> simp

theorem splitAllChar_of_not_mem (c : Char) (s : List Char) (h : c ∉ s) :
    splitAllChar c s = [s] := by
  induction s with
  | nil => rfl
  | cons x r ih =>
    have hp : c ≠ x ∧ c ∉ r := by simpa [not_or] using h
    have hxc : ¬ x = c := fun hh => hp.1 hh.symm
    simp [splitAllChar, hxc, ih hp.2]

theorem splitAllChar_append (c : Char) (xs ys : List Char) (h : c ∉ xs) :
    splitAllChar c (xs ++ c :: ys) = xs :: splitAllChar c ys := by
  induction xs with
  | nil => simp [splitAllChar]
  | cons x r ih =>
    have hp : c ≠ x ∧ c ∉ r := by simpa [not_or] using h
    have hxc : ¬ x = c := fun hh => hp.1 hh.symm
    rw [List.cons_append, splitAllChar]
    rw [if_neg hxc, ih hp.2]

theorem startsWithL_append (p s : List Char) : startsWithL p (p ++ s) = true := by
  induction p with
  | nil => rfl
  | cons x r ih => simp [startsWithL, ih]

theorem pyDictGet_append_last (k v : List Char) (ps : List (List Char × List Char)) :
    pyDictGet k (ps ++ [(k, v)]) = some v := by
  simp [pyDictGet, List.foldl_append]

theorem amp_not_mem_encodeSp (s : List Char) (h : '&' ∉ s) : '&' ∉ encodeSp s := by
  induction s with
  | nil => simp [encodeSp]
  | cons x r ih =>
    have hp : '&' ≠ x ∧ '&' ∉ r := by simpa [not_or] using h
    by_cases hx : x = ' '
    · simp only [encodeSp, List.flatMap_cons, hx, if_true] at *
      simp only [List.mem_append, not_or]
      exact ⟨by decide, ih hp.2⟩
    · simp only [encodeSp, List.flatMap_cons, hx, if_false] at *
      simp only [List.mem_append, not_or]
      exact ⟨by simp [hp.1], ih hp.2⟩

theorem decodePct_pct (t : List Char) :
    decodePct ('%' :: '2' :: '0' :: t) = ' ' :: decodePct t := by
  rw [decodePct]
  simp

theorem decodePct_cons_ne (c : Char) (t : List Char) (h : ¬ c = '%') :
    decodePct (c :: t) = c :: decodePct t := by
  rw [decodePct]
  simp [h]

theorem decodePct_pct_ne (t : List Char) (h : t.take 2 ≠ ['2', '0']) :
    decodePct ('%' :: t) = '%' :: decodePct t := by
  rw [decodePct]
  simp [h]

theorem encodeSp_take2 (r : List Char) (h : (encodeSp r).take 2 = ['2', '0']) :
    r.take 2 = ['2', '0'] := by
  match r with
  | [] => simp [encodeSp] at h
  | y :: r2 =>
    by_cases hy : y = ' '
    · subst hy
      simp [encodeSp] at h
    · simp only [encodeSp, List.flatMap_cons, if_neg hy, List.singleton_append] at h
      rw [show (2:Nat) = 1 + 1 from rfl, List.take_succ_cons] at h
      simp only [List.cons.injEq] at h
      obtain ⟨hy2, h1⟩ := h
      subst hy2
      match r2 with
      | [] => simp [encodeSp] at h1
      | z :: r3 =>
        by_cases hz : z = ' '
        · subst hz
          simp [encodeSp] at h1
        · simp only [encodeSp, List.flatMap_cons, if_neg hz, List.singleton_append] at h1
          rw [show (1:Nat) = 0 + 1 from rfl, List.take_succ_cons] at h1
          simp only [List.cons.injEq] at h1
          obtain ⟨hz0, _⟩ := h1
          subst hz0
          simp

theorem decodePct_encodeSp (s : List Char) (h : hasPct s = false) :
    decodePct (encodeSp s) = s := by
  induction s with
  | nil => simp [encodeSp, decodePct]
  | cons x r ih =>
    rw [hasPct] at h
    have hh := Bool.or_eq_false_iff.mp h
    have hr := ih hh.2
    by_cases hx : x = ' '
    · subst hx
      show decodePct ('%' :: '2' :: '0' :: encodeSp r) = ' ' :: r
      rw [decodePct_pct, hr]
    · have hxe : encodeSp (x :: r) = x :: encodeSp r := by
        simp [encodeSp, hx]
      rw [hxe]
      by_cases hp : x = '%'
      · subst hp
        have htk : r.take 2 ≠ ['2', '0'] := by
          intro hc
          simp [hc] at hh
        have htke : (encodeSp r).take 2 ≠ ['2', '0'] :=
          fun hc => htk (encodeSp_take2 r hc)
        rw [decodePct_pct_ne _ htke, hr]
      · rw [decodePct_cons_ne x _ hp, hr]

/-! ## Lemmas about digits, `parseDec` and `floatStr` -/

theorem natDigits_small (n : Nat) (h : n < 10) :
    natDigits n = [Char.ofNat (48 + n)] := by
  rw [natDigits, dif_pos h]

theorem natDigits_large (n : Nat) (h : ¬ n < 10) :
    natDigits n = natDigits (n / 10) ++ [Char.ofNat (48 + n % 10)] := by
  rw [natDigits, dif_neg h]

theorem digitChar_isDigit (k : Nat) (h : k < 10) :
    (Char.ofNat (48 + k)).isDigit = true := by
  interval_cases k <;> decide

theorem digitChar_toNat (k : Nat) (h : k < 10) :
    (Char.ofNat (48 + k)).toNat = 48 + k := by
  interval_cases k <;> decide

theorem mem_natDigits_isDigit (n : Nat) (c : Char) (h : c ∈ natDigits n) :
    c.isDigit = true := by
  induction n using Nat.strong_induction_on with
  | _ n ih =>
    by_cases h10 : n < 10
    · rw [natDigits_small n h10] at h
      simp only [List.mem_singleton] at h
      subst h
      exact digitChar_isDigit n h10
    · rw [natDigits_large n h10] at h
      rcases List.mem_append.mp h with hm | hm
      · exact ih (n / 10) (Nat.div_lt_self (by omega) (by omega)) hm
      · simp only [List.mem_singleton] at hm
        subst hm
        exact digitChar_isDigit _ (Nat.mod_lt _ (by omega))

theorem natDigits_ne_nil (n : Nat) : natDigits n ≠ [] := by
  by_cases h : n < 10
  · simp [natDigits_small n h]
  · simp [natDigits_large n h]

theorem natDigits_all_digit (n : Nat) :
    (natDigits n).all Char.isDigit = true :=
  List.all_eq_true.mpr fun c hc => mem_natDigits_isDigit n c hc

theorem not_digit_not_mem_natDigits (c : Char) (hc : c.isDigit = false)
    (n : Nat) : c ∉ natDigits n := by
  intro hmem
  rw [mem_natDigits_isDigit n c hmem] at hc
  exact absurd hc (by simp)

theorem digitsValCore_append_digit (l : List Char) (c : Char) :
    digitsValCore (l ++ [c]) = digitsValCore l * 10 + (c.toNat - 48) := by
  simp [digitsValCore, List.foldl_append]

theorem digitsValCore_natDigits (n : Nat) : digitsValCore (natDigits n) = n := by
  induction n using Nat.strong_induction_on with
  | _ n ih =>
    by_cases h10 : n < 10
    · rw [natDigits_small n h10]
      show digitsValCore [Char.ofNat (48 + n)] = n
      simp [digitsValCore, digitChar_toNat n h10]
    · rw [natDigits_large n h10, digitsValCore_append_digit,
        ih (n / 10) (Nat.div_lt_self (by omega) (by omega)),
        digitChar_toNat _ (Nat.mod_lt _ (by omega))]
      omega

theorem natDigits_length_one (n : Nat) (h : n < 10) :
    (natDigits n).length = 1 := by
  simp [natDigits_small n h]

theorem natDigits_length_two (n : Nat) (h1 : 10 ≤ n) (h2 : n < 100) :
    (natDigits n).length = 2 := by
  rw [natDigits_large n (by omega)]
  simp [natDigits_length_one (n / 10) (by omega)]

theorem parseDecNN_digits (ip fp : List Char)
    (h1 : ip.all Char.isDigit = true) (h2 : fp.all Char.isDigit = true)
    (hne : ip ≠ []) :
    parseDecNN (ip ++ '.' :: fp) =
      some ((digitsValCore ip : ℚ) + (digitsValCore fp : ℚ) / (10 : ℚ) ^ fp.length) := by
  have hdot : '.' ∉ ip := by
    intro hmem
    have := List.all_eq_true.mp h1 _ hmem
    exact absurd this (by decide)
  unfold parseDecNN
  rw [splitOnceChar_append '.' ip fp hdot]
  simp [h1, h2, hne]

theorem parseDec_of_digit_head (c : Char) (t : List Char) (h : c.isDigit = true) :
    parseDec (c :: t) = parseDecNN (c :: t) := by
  have h1 : ¬ c = '+' := by intro hh; subst hh; exact absurd h (by decide)
  have h2 : ¬ c = '-' := by intro hh; subst hh; exact absurd h (by decide)
  simp [parseDec, h1, h2]

theorem parseDec_natDigits_head (ip fp : List Char)
    (h1 : ip.all Char.isDigit = true) (h2 : fp.all Char.isDigit = true)
    (hne : ip ≠ []) :
    parseDec (ip ++ '.' :: fp) =
      some ((digitsValCore ip : ℚ) + (digitsValCore fp : ℚ) / (10 : ℚ) ^ fp.length) := by
  match ip, hne with
  | c0 :: l0, _ =>
    rw [List.cons_append, parseDec_of_digit_head]
    · rw [← List.cons_append]
      exact parseDecNN_digits _ fp h1 h2 (by simp)
    · have : c0 ∈ c0 :: l0 := List.mem_cons_self _ _
      exact List.all_eq_true.mp h1 _ this

theorem digitsValCore_cons_zero (l : List Char) :
    digitsValCore ('0' :: l) = digitsValCore l := rfl

theorem parseDec_floatStrNN (q : ℚ) (h0 : 0 ≤ q) (hden : (q * 100).den = 1) :
    parseDec (floatStrNN q) = some q := by
  have hmQ0 : ((q * 100).num : ℚ) = q * 100 := (Rat.den_eq_one_iff _).mp hden
  have hnn : (0 : ℤ) ≤ (q * 100).num := Rat.num_nonneg.mpr (by positivity)
  have hmQ : (((q * 100).num.toNat : ℕ) : ℚ) = q * 100 := by
    rw [← Int.toNat_of_nonneg hnn] at hmQ0
    exact_mod_cast hmQ0
  simp only [floatStrNN]
  rw [if_pos hden]
  set m : Nat := (q * 100).num.toNat with hm
  set ip : Nat := m / 100 with hip
  set fr : Nat := m % 100 with hfr
  have hmdec : m = 100 * ip + fr := (Nat.div_add_mod m 100).symm
  have hfr100 : fr < 100 := Nat.mod_lt _ (by norm_num)
  have hq : (100 * (ip : ℚ) + (fr : ℚ)) / 100 = q := by
    have : ((m : ℕ) : ℚ) = 100 * (ip : ℚ) + (fr : ℚ) := by
      rw [hmdec]; push_cast; ring
    rw [← this, hmQ]
    field_simp
  by_cases hfr0 : fr = 0
  · rw [if_pos hfr0]
    rw [show ['.', '0'] = '.' :: ['0'] from rfl]
    rw [parseDec_natDigits_head (natDigits ip) ['0'] (natDigits_all_digit ip)
      (by decide) (natDigits_ne_nil ip)]
    rw [digitsValCore_natDigits]
    rw [← hq, hfr0]
    norm_num
    rfl
  · rw [if_neg hfr0]
    by_cases hfr10 : fr % 10 = 0
    · rw [if_pos hfr10]
      have hd1 : fr / 10 < 10 := by omega
      have hd2 : 1 ≤ fr / 10 := by omega
      rw [parseDec_natDigits_head (natDigits ip) (natDigits (fr / 10))
        (natDigits_all_digit ip) (natDigits_all_digit _) (natDigits_ne_nil ip)]
      rw [digitsValCore_natDigits, digitsValCore_natDigits,
        natDigits_length_one _ hd1]
      rw [← hq]
      have hfr10Q : ((fr : ℕ) : ℚ) = 10 * (((fr / 10 : ℕ) : ℕ) : ℚ) := by
        have hmul : fr / 10 * 10 = fr := Nat.div_mul_cancel (Nat.dvd_of_mod_eq_zero hfr10)
        calc ((fr : ℕ) : ℚ) = ((fr / 10 * 10 : ℕ) : ℚ) := by rw [hmul]
          _ = 10 * (((fr / 10 : ℕ) : ℕ) : ℚ) := by push_cast; ring
      rw [hfr10Q]
      field_simp
      ring
    · rw [if_neg hfr10]
      by_cases hfrlt : fr < 10
      · rw [if_pos hfrlt]
        rw [show ('0' :: natDigits fr) = '0' :: natDigits fr from rfl]
        rw [parseDec_natDigits_head (natDigits ip) ('0' :: natDigits fr)
          (natDigits_all_digit ip)
          (by rw [List.all_cons, natDigits_all_digit]; decide) (natDigits_ne_nil ip)]
        rw [digitsValCore_natDigits, digitsValCore_cons_zero, digitsValCore_natDigits]
        rw [List.length_cons, natDigits_length_one _ hfrlt]
        rw [← hq]
        field_simp
        ring
      · rw [if_neg hfrlt]
        rw [parseDec_natDigits_head (natDigits ip) (natDigits fr)
          (natDigits_all_digit ip) (natDigits_all_digit _) (natDigits_ne_nil ip)]
        rw [digitsValCore_natDigits, digitsValCore_natDigits,
          natDigits_length_two fr (by omega) hfr100]
        rw [← hq]
        field_simp
        ring

theorem mem_floatStrNN (q : ℚ) (c : Char) (h : c ∈ floatStrNN q) :
    c.isDigit = true ∨ c = '.' := by
  simp only [floatStrNN] at h
  split_ifs at h <;>
    simp only [List.mem_append, List.mem_cons, List.mem_singleton,
      List.not_mem_nil, or_false] at h
  · rcases h with h | h | h
    · exact Or.inl (mem_natDigits_isDigit _ _ h)
    · exact Or.inr h
    · subst h; exact Or.inl (by decide)
  · rcases h with h | h | h
    · exact Or.inl (mem_natDigits_isDigit _ _ h)
    · exact Or.inr h
    · exact Or.inl (mem_natDigits_isDigit _ _ h)
  · rcases h with h | h | h | h
    · exact Or.inl (mem_natDigits_isDigit _ _ h)
    · exact Or.inr h
    · subst h; exact Or.inl (by decide)
    · exact Or.inl (mem_natDigits_isDigit _ _ h)
  · rcases h with h | h | h
    · exact Or.inl (mem_natDigits_isDigit _ _ h)
    · exact Or.inr h
    · exact Or.inl (mem_natDigits_isDigit _ _ h)
  · rcases h with h | h | h
    · exact Or.inl (mem_natDigits_isDigit _ _ h)
    · exact Or.inr h
    · subst h; exact Or.inl (by decide)

theorem not_mem_of_all_class (p : Char → Bool) (l : List Char)
    (h : l.all p = true) (c : Char) (hc : p c = false) : c ∉ l := by
  intro hm
  rw [List.all_eq_true.mp h c hm] at hc
  exact absurd hc (by simp)

theorem amp_not_mem_floatStr (q : ℚ) : '&' ∉ floatStr q := by
  unfold floatStr
  split_ifs with h
  · intro hm
    simp only [List.mem_cons] at hm
    rcases hm with hm | hm
    · exact absurd hm (by decide)
    · rcases mem_floatStrNN _ _ hm with hd | hd
      · exact absurd hd (by decide)
      · exact absurd hd (by decide)
  · intro hm
    rcases mem_floatStrNN _ _ hm with hd | hd
    · exact absurd hd (by decide)
    · exact absurd hd (by decide)

theorem floatStrNN_ne_nil (q : ℚ) : floatStrNN q ≠ [] := by
  simp only [floatStrNN]
  split_ifs <;> simp [natDigits_ne_nil]

theorem floatStr_ne_nil (q : ℚ) : floatStr q ≠ [] := by
  unfold floatStr
  split_ifs
  · simp
  · exact floatStrNN_ne_nil q

theorem parseDec_floatStr (q : ℚ) (h0 : 0 ≤ q) (hden : (q * 100).den = 1) :
    parseDec (floatStr q) = some q := by
  rw [floatStr, if_neg (not_lt.mpr h0)]
  exact parseDec_floatStrNN q h0 hden

theorem den_eq_one_of_pyRound2_eq (a : ℚ) (h : pyRound2 a = a) :
    (a * 100).den = 1 := by
  unfold pyRound2 at h
  rw [div_eq_iff (by norm_num : (100 : ℚ) ≠ 0)] at h
  rw [← h]
  exact Rat.den_intCast _

theorem validate_amount_some_iff (a : ℚ) :
    validate_amount (some a) = true ↔ (0 ≤ a ∧ a ≤ 1000000 ∧ pyRound2 a = a) := by
  simp only [validate_amount]
  split_ifs with h1 h2 h3
  · constructor
    · intro hh; exact absurd hh (by simp)
    · rintro ⟨hx, -, -⟩; linarith
  · constructor
    · intro hh; exact absurd hh (by simp)
    · rintro ⟨-, hx, -⟩; linarith
  · constructor
    · intro hh; exact absurd hh (by simp)
    · rintro ⟨-, -, hx⟩; exact absurd hx h3
  · constructor
    · intro _
      exact ⟨not_lt.mp h1, not_lt.mp h2, not_not.mp h3⟩
    · intro _; rfl

/-! ## Lemmas about `validate_upi_id` -/

theorem upiIdPatternCore_decomp (u d : List Char) (hum : '@' ∉ u) :
    upiIdPatternCore (u ++ '@' :: d) =
      (!u.isEmpty && !d.isEmpty && u.all isLocalChar && d.all isDomainChar) := by
  simp [upiIdPatternCore, splitOnceChar_append '@' u d hum]

theorem upiIdPatternCore_true (s : List Char) (h : upiIdPatternCore s = true) :
    ∃ u d, s = u ++ '@' :: d ∧ u ≠ [] ∧ d ≠ [] ∧
      u.all isLocalChar = true ∧ d.all isDomainChar = true := by
  match hsp : splitOnceChar '@' s with
  | none =>
    rw [upiIdPatternCore, hsp] at h
    exact absurd h (by simp)
  | some (u, d) =>
    rw [upiIdPatternCore, hsp] at h
    simp only [Bool.and_eq_true, Bool.not_eq_true', List.isEmpty_eq_false] at h
    obtain ⟨⟨⟨hu, hd⟩, hla⟩, hda⟩ := h
    obtain ⟨hdec, -⟩ := splitOnceChar_eq_some '@' s u d hsp
    exact ⟨u, d, hdec, hu, hd, hla, hda⟩

theorem validate_upi_id_true_parts (s : List Char)
    (h : validate_upi_id s = true) :
    upiIdPatternMatch s = true ∧ (splitAllChar '@' s).length = 2 ∧
      3 ≤ ((splitAllChar '@' s).headD []).length := by
  unfold validate_upi_id at h
  by_cases h1 : s.isEmpty
  · rw [if_pos h1] at h
    exact absurd h (by simp)
  · rw [if_neg h1] at h
    by_cases h2 : upiIdPatternMatch s = true
    · rw [h2] at h
      simp only [Bool.not_true, Bool.false_eq_true, if_false] at h
      split_ifs at h with ha hb
      exact ⟨h2, by omega, by omega⟩
    · have h2f : upiIdPatternMatch s = false := by
        cases hx : upiIdPatternMatch s
        · rfl
        · exact absurd hx h2
      rw [h2f] at h
      simp at h

theorem validate_upi_id_true_of (s : List Char) (h1 : s.isEmpty = false)
    (h2 : upiIdPatternMatch s = true) (h3 : (splitAllChar '@' s).length = 2)
    (h4 : 3 ≤ ((splitAllChar '@' s).headD []).length) :
    validate_upi_id s = true := by
  unfold validate_upi_id
  rw [h1, h2]
  simp only [Bool.false_eq_true, if_false, Bool.not_true]
  rw [if_neg (by omega), if_neg (by omega)]

theorem validate_upi_id_iff (s : List Char) :
    validate_upi_id s = true ↔
      ∃ u d, (s = u ++ '@' :: d ∨ s = u ++ '@' :: (d ++ ['\n'])) ∧
        u.all isLocalChar = true ∧ d.all isDomainChar = true ∧ d ≠ [] ∧
        3 ≤ u.length := by
  constructor
  · intro h
    obtain ⟨hp, hlen, hhead⟩ := validate_upi_id_true_parts s h
    rw [upiIdPatternMatch] at hp
    simp only [Bool.or_eq_true] at hp
    rcases hp with hp | hp
    · obtain ⟨u, d, hdec, hu, hd, hla, hda⟩ := upiIdPatternCore_true s hp
      have hum : '@' ∉ u := not_mem_of_all_class _ u hla '@' (by decide)
      have hdm : '@' ∉ d := not_mem_of_all_class _ d hda '@' (by decide)
      have hparts : splitAllChar '@' s = [u, d] := by
        rw [hdec, splitAllChar_append '@' u d hum,
          splitAllChar_of_not_mem '@' d hdm]
      rw [hparts] at hhead
      exact ⟨u, d, Or.inl hdec, hla, hda, hd, by simpa using hhead⟩
    · simp only [Bool.and_eq_true, decide_eq_true_eq] at hp
      obtain ⟨hlast, hcore⟩ := hp
      obtain ⟨u, d, hdec, hu, hd, hla, hda⟩ :=
        upiIdPatternCore_true s.dropLast hcore
      have hum : '@' ∉ u := not_mem_of_all_class _ u hla '@' (by decide)
      have hne : s ≠ [] := by
        intro h0
        rw [h0] at hlast
        simp at hlast
      have hs : s = u ++ '@' :: (d ++ ['\n']) := by
        have hcat := List.dropLast_append_getLast hne
        have hg : s.getLast hne = '\n' := by
          have hq := List.getLast?_eq_getLast s hne
          rw [hq] at hlast
          exact Option.some.inj hlast
        rw [hg, hdec] at hcat
        rw [← hcat]
        simp
      have hdm2 : '@' ∉ d ++ ['\n'] := by
        simp only [List.mem_append, List.mem_singleton, not_or]
        exact ⟨not_mem_of_all_class _ d hda '@' (by decide), by decide⟩
      have hparts : splitAllChar '@' s = [u, d ++ ['\n']] := by
        rw [hs, splitAllChar_append '@' u _ hum,
          splitAllChar_of_not_mem '@' _ hdm2]
      rw [hparts] at hhead
      exact ⟨u, d, Or.inr hs, hla, hda, hd, by simpa using hhead⟩
  · rintro ⟨u, d, hform, hla, hda, hd, hlen⟩
    have hum : '@' ∉ u := not_mem_of_all_class _ u hla '@' (by decide)
    have hdm : '@' ∉ d := not_mem_of_all_class _ d hda '@' (by decide)
    have hu : u ≠ [] := by
      intro hnil
      rw [hnil] at hlen
      simp at hlen
    have hue : u.isEmpty = false := by simp [hu]
    have hde : d.isEmpty = false := by simp [hd]
    rcases hform with hdec | hdec
    · have hcore : upiIdPatternCore s = true := by
        rw [hdec, upiIdPatternCore_decomp u d hum]
        simp [hue, hde, hla, hda]
      have hp : upiIdPatternMatch s = true := by
        rw [upiIdPatternMatch, hcore]
        simp
      have hparts : splitAllChar '@' s = [u, d] := by
        rw [hdec, splitAllChar_append '@' u d hum,
          splitAllChar_of_not_mem '@' d hdm]
      refine validate_upi_id_true_of s ?_ hp ?_ ?_
      · rw [hdec]
        cases u <;> simp
      · rw [hparts]
        rfl
      · rw [hparts]
        simpa using hlen
    · have hshape : u ++ '@' :: (d ++ ['\n']) = (u ++ '@' :: d) ++ ['\n'] := by
        simp
      have hdl : s.dropLast = u ++ '@' :: d := by
        rw [hdec, hshape]
        exact List.dropLast_concat
      have hlast : s.getLast? = some '\n' := by
        rw [hdec, hshape]
        exact List.getLast?_concat _
      have hcore : upiIdPatternCore s.dropLast = true := by
        rw [hdl, upiIdPatternCore_decomp u d hum]
        simp [hue, hde, hla, hda]
      have hp : upiIdPatternMatch s = true := by
        rw [upiIdPatternMatch, hcore, hlast]
        simp
      have hdm2 : '@' ∉ d ++ ['\n'] := by
        simp only [List.mem_append, List.mem_singleton, not_or]
        exact ⟨hdm, by decide⟩
      have hparts : splitAllChar '@' s = [u, d ++ ['\n']] := by
        rw [hdec, splitAllChar_append '@' u _ hum,
          splitAllChar_of_not_mem '@' _ hdm2]
      refine validate_upi_id_true_of s ?_ hp ?_ ?_
      · rw [hdec]
        cases u <;> simp
      · rw [hparts]
        rfl
      · rw [hparts]
        simpa using hlen

theorem validate_upi_id_chars (s : List Char) (h : validate_upi_id s = true)
    (c : Char) (hc1 : isLocalChar c = false) (hc2 : isDomainChar c = false)
    (hc3 : ¬ c = '@') (hc4 : ¬ c = '\n') : c ∉ s := by
  obtain ⟨u, d, hform, hla, hda, -, -⟩ := (validate_upi_id_iff s).mp h
  have hcu : c ∉ u := not_mem_of_all_class _ u hla c hc1
  have hcd : c ∉ d := not_mem_of_all_class _ d hda c hc2
  rcases hform with hdec | hdec <;> rw [hdec]
  · simp only [List.mem_append, List.mem_cons, not_or]
    exact ⟨hcu, hc3, hcd⟩
  · simp only [List.mem_append, List.mem_cons, List.mem_singleton, not_or]
    exact ⟨hcu, hc3, hcd, hc4, by simp⟩

theorem validate_upi_id_ne_nil (s : List Char) (h : validate_upi_id s = true) :
    s ≠ [] := by
  obtain ⟨u, d, hform, -, -, -, -⟩ := (validate_upi_id_iff s).mp h
  rcases hform with hdec | hdec <;> rw [hdec] <;> cases u <;> simp

/-! ## The canonical shape of a fully populated created UPI string -/

theorem lit_upipa : "upi://pay?pa=".toList =
    ['u', 'p', 'i', ':', '/', '/', 'p', 'a', 'y', '?', 'p', 'a', '='] := rfl

theorem lit_upiq : "upi://pay?".toList =
    ['u', 'p', 'i', ':', '/', '/', 'p', 'a', 'y', '?'] := rfl

theorem lit_upinoq : "upi://pay".toList =
    ['u', 'p', 'i', ':', '/', '/', 'p', 'a', 'y'] := rfl

theorem lit_amppn : "&pn=".toList = ['&', 'p', 'n', '='] := rfl

theorem lit_ampam : "&am=".toList = ['&', 'a', 'm', '='] := rfl

theorem lit_amptn : "&tn=".toList = ['&', 't', 'n', '='] := rfl

theorem lit_amptr : "&tr=".toList = ['&', 't', 'r', '='] := rfl

theorem lit_pa : "pa".toList = ['p', 'a'] := rfl

theorem lit_pn : "pn".toList = ['p', 'n'] := rfl

theorem lit_am : "am".toList = ['a', 'm'] := rfl

theorem lit_tn : "tn".toList = ['t', 'n'] := rfl

theorem lit_tr : "tr".toList = ['t', 'r'] := rfl

theorem lit_cu : "cu".toList = ['c', 'u'] := rfl

theorem create_shape (a n : List Char) (amt : ℚ) (note ref : List Char)
    (hamt : amt ≠ 0) (hnote : note ≠ []) (href : ref ≠ []) :
    create_upi_string a n (some amt) (some note) (some ref) =
      "upi://pay".toList ++ '?' ::
        (("pa".toList ++ '=' :: a) ++ '&' ::
          (("pn".toList ++ '=' :: n) ++ '&' ::
            (("am".toList ++ '=' :: floatStr amt) ++ '&' ::
              (("tn".toList ++ '=' :: encodeSp note) ++ '&' ::
                ("tr".toList ++ '=' :: ref))))) := by
  have h1 : pyTruthyQ (some amt) = true := by simp [pyTruthyQ, hamt]
  have h2 : pyTruthyS (some note) = true := by simp [pyTruthyS, hnote]
  have h3 : pyTruthyS (some ref) = true := by simp [pyTruthyS, href]
  simp only [create_upi_string, h1, h2, h3, if_true, Option.getD_some]
  simp [lit_upipa, lit_upinoq, lit_amppn, lit_ampam, lit_amptn, lit_amptr,
    lit_pa, lit_pn, lit_am, lit_tn, lit_tr]

theorem extractParams_create (a n : List Char) (amt : ℚ) (note ref : List Char)
    (hamt : amt ≠ 0) (hnote : note ≠ []) (href : ref ≠ [])
    (ha : '&' ∉ a) (hn : '&' ∉ n) (hnoteamp : '&' ∉ note) (hrefamp : '&' ∉ ref) :
    extractParams (create_upi_string a n (some amt) (some note) (some ref)) =
      [("pa".toList, a), ("pn".toList, n), ("am".toList, floatStr amt),
        ("tn".toList, encodeSp note), ("tr".toList, ref)] := by
  rw [create_shape a n amt note ref hamt hnote href]
  have hq : '?' ∉ "upi://pay".toList := by decide
  have hsp1 : splitOnceChar '?' ("upi://pay".toList ++ '?' ::
      (("pa".toList ++ '=' :: a) ++ '&' ::
        (("pn".toList ++ '=' :: n) ++ '&' ::
          (("am".toList ++ '=' :: floatStr amt) ++ '&' ::
            (("tn".toList ++ '=' :: encodeSp note) ++ '&' ::
              ("tr".toList ++ '=' :: ref)))))) =
      some ("upi://pay".toList,
        ("pa".toList ++ '=' :: a) ++ '&' ::
          (("pn".toList ++ '=' :: n) ++ '&' ::
            (("am".toList ++ '=' :: floatStr amt) ++ '&' ::
              (("tn".toList ++ '=' :: encodeSp note) ++ '&' ::
                ("tr".toList ++ '=' :: ref))))) :=
    splitOnceChar_append '?' _ _ hq
  have hp1 : '&' ∉ "pa".toList ++ '=' :: a := by
    simp only [List.mem_append, List.mem_cons, not_or]
    exact ⟨by decide, by decide, ha⟩
  have hp2 : '&' ∉ "pn".toList ++ '=' :: n := by
    simp only [List.mem_append, List.mem_cons, not_or]
    exact ⟨by decide, by decide, hn⟩
  have hp3 : '&' ∉ "am".toList ++ '=' :: floatStr amt := by
    simp only [List.mem_append, List.mem_cons, not_or]
    exact ⟨by decide, by decide, amp_not_mem_floatStr amt⟩
  have hp4 : '&' ∉ "tn".toList ++ '=' :: encodeSp note := by
    simp only [List.mem_append, List.mem_cons, not_or]
    exact ⟨by decide, by decide, amp_not_mem_encodeSp note hnoteamp⟩
  have hp5 : '&' ∉ "tr".toList ++ '=' :: ref := by
    simp only [List.mem_append, List.mem_cons, not_or]
    exact ⟨by decide, by decide, hrefamp⟩
  have hsplit : splitAllChar '&'
      (("pa".toList ++ '=' :: a) ++ '&' ::
        (("pn".toList ++ '=' :: n) ++ '&' ::
          (("am".toList ++ '=' :: floatStr amt) ++ '&' ::
            (("tn".toList ++ '=' :: encodeSp note) ++ '&' ::
              ("tr".toList ++ '=' :: ref))))) =
      ["pa".toList ++ '=' :: a, "pn".toList ++ '=' :: n,
        "am".toList ++ '=' :: floatStr amt, "tn".toList ++ '=' :: encodeSp note,
        "tr".toList ++ '=' :: ref] := by
    rw [splitAllChar_append '&' _ _ hp1, splitAllChar_append '&' _ _ hp2,
      splitAllChar_append '&' _ _ hp3, splitAllChar_append '&' _ _ hp4,
      splitAllChar_of_not_mem '&' _ hp5]
  have heq1 : '=' ∉ "pa".toList := by decide
  have heq2 : '=' ∉ "pn".toList := by decide
  have heq3 : '=' ∉ "am".toList := by decide
  have heq4 : '=' ∉ "tn".toList := by decide
  have heq5 : '=' ∉ "tr".toList := by decide
  unfold extractParams
  rw [hsp1]
  simp only [Option.map_some', Option.getD_some]
  rw [hsplit]
  simp only [List.foldl_cons, List.foldl_nil,
    splitOnceChar_append '=' _ _ heq1, splitOnceChar_append '=' _ _ heq2,
    splitOnceChar_append '=' _ _ heq3, splitOnceChar_append '=' _ _ heq4,
    splitOnceChar_append '=' _ _ heq5]
  simp

theorem pyDictGet_params5 (a n f e r : List Char) :
    pyDictGet "pa".toList
        [("pa".toList, a), ("pn".toList, n), ("am".toList, f),
          ("tn".toList, e), ("tr".toList, r)] = some a ∧
    pyDictGet "pn".toList
        [("pa".toList, a), ("pn".toList, n), ("am".toList, f),
          ("tn".toList, e), ("tr".toList, r)] = some n ∧
    pyDictGet "am".toList
        [("pa".toList, a), ("pn".toList, n), ("am".toList, f),
          ("tn".toList, e), ("tr".toList, r)] = some f ∧
    pyDictGet "tn".toList
        [("pa".toList, a), ("pn".toList, n), ("am".toList, f),
          ("tn".toList, e), ("tr".toList, r)] = some e ∧
    pyDictGet "tr".toList
        [("pa".toList, a), ("pn".toList, n), ("am".toList, f),
          ("tn".toList, e), ("tr".toList, r)] = some r ∧
    pyDictGet "cu".toList
        [("pa".toList, a), ("pn".toList, n), ("am".toList, f),
          ("tn".toList, e), ("tr".toList, r)] = none := by
  refine ⟨?_, ?_, ?_, ?_, ?_, ?_⟩ <;>
    simp [pyDictGet, List.foldl_cons, List.foldl_nil]

theorem startsWithL_scheme (R : List Char) :
    startsWithL "upi://pay?".toList ("upi://pay".toList ++ '?' :: R) = true := by
  have h : "upi://pay".toList ++ '?' :: R = "upi://pay?".toList ++ R := by
    simp [lit_upinoq, lit_upiq]
  rw [h]
  exact startsWithL_append _ _

theorem parse_create (a n : List Char) (amt : ℚ) (note ref : List Char)
    (hamt0 : 0 ≤ amt) (hamtden : (amt * 100).den = 1) (hamt : amt ≠ 0)
    (hnote : note ≠ []) (href : ref ≠ [])
    (ha : '&' ∉ a) (hn : '&' ∉ n) (hnoteamp : '&' ∉ note) (hrefamp : '&' ∉ ref)
    (hpct : hasPct note = false) :
    parse_upi_string (create_upi_string a n (some amt) (some note) (some ref)) =
      some ⟨a, n, some amt, note, ref, "INR".toList⟩ := by
  have hshape := create_shape a n amt note ref hamt hnote href
  have hsw : startsWithL "upi://pay?".toList
      (create_upi_string a n (some amt) (some note) (some ref)) = true := by
    rw [hshape]
    exact startsWithL_scheme _
  have hparams := extractParams_create a n amt note ref hamt hnote href
    ha hn hnoteamp hrefamp
  obtain ⟨hpa, hpn, ham, htn, htr, hcu⟩ :=
    pyDictGet_params5 a n (floatStr amt) (encodeSp note) ref
  unfold parse_upi_string
  rw [hsw]
  simp only [Bool.not_true, Bool.false_eq_true, if_false]
  rw [hparams, ham]
  have hfne : (floatStr amt).isEmpty = false := by
    simp [List.isEmpty_eq_false, floatStr_ne_nil]
  dsimp only
  rw [hfne]
  simp only [Bool.not_false, if_true]
  rw [parseDec_floatStr amt hamt0 hamtden]
  simp only [mkParsed, hpa, hpn, htn, htr, hcu, Option.getD_some, Option.getD_none]
  rw [decodePct_encodeSp note hpct]

theorem decodePct_nil : decodePct [] = [] := by rw [decodePct]


theorem parse_upi_am_absent (s : List Char)
    (hpre : startsWithL "upi://pay?".toList s = true)
    (ham : pyDictGet "am".toList (extractParams s) = none) :
    parse_upi_string s = some (mkParsed (extractParams s) none) := by
  unfold parse_upi_string
  rw [hpre]
  simp only [Bool.not_true, Bool.false_eq_true, if_false]
  rw [ham]

theorem parse_upi_am_empty (s : List Char)
    (hpre : startsWithL "upi://pay?".toList s = true)
    (ham : pyDictGet "am".toList (extractParams s) = some []) :
    parse_upi_string s = some (mkParsed (extractParams s) none) := by
  unfold parse_upi_string
  rw [hpre]
  simp only [Bool.not_true, Bool.false_eq_true, if_false]
  rw [ham]
  rfl

theorem parse_upi_am_bad (s v : List Char)
    (hpre : startsWithL "upi://pay?".toList s = true)
    (ham : pyDictGet "am".toList (extractParams s) = some v)
    (hne : v ≠ []) (hbad : parseDec v = none) :
    parse_upi_string s = none := by
  unfold parse_upi_string
  rw [hpre]
  simp only [Bool.not_true, Bool.false_eq_true, if_false]
  rw [ham]
  dsimp only
  have hie : v.isEmpty = false := by simp [List.isEmpty_eq_false, hne]
  rw [hie, hbad]
  rfl

theorem parse_upi_am_good (s v : List Char) (q : ℚ)
    (hpre : startsWithL "upi://pay?".toList s = true)
    (ham : pyDictGet "am".toList (extractParams s) = some v)
    (hne : v ≠ []) (hq : parseDec v = some q) :
    parse_upi_string s = some (mkParsed (extractParams s) (some q)) := by
  unfold parse_upi_string
  rw [hpre]
  simp only [Bool.not_true, Bool.false_eq_true, if_false]
  rw [ham]
  dsimp only
  have hie : v.isEmpty = false := by simp [List.isEmpty_eq_false, hne]
  rw [hie, hq]
  rfl

/-! ## Claim theorems -/


theorem getLast?_append_right (l1 l2 : List Char) (h : l2 ≠ []) :
    (l1 ++ l2).getLast? = l2.getLast? := by
  induction l1 with
  | nil => rfl
  | cons x t ih =>
    rw [List.cons_append]
    match hx : t ++ l2 with
    | [] => exact absurd (List.append_eq_nil.mp hx).2 h
    | y :: r =>
      rw [List.getLast?_cons_cons, ← hx, ih]

/-- C6 counterexample: Python's `$` anchor also matches just before one
    trailing newline, so the source's `validate_upi_id` accepts
    `"abc@upi\n"` — a string OUTSIDE the claimed `localpart@domain`
    grammar, since `'\n'` is not a domain character — refuting the claimed
    if-and-only-if as stated. -/
theorem validate_payment_address_counterexample :
    validate_upi_id "abc@upi\n".toList = true ∧
    ¬ ∃ u d, "abc@upi\n".toList = u ++ '@' :: d ∧ u.all isLocalChar = true ∧
      d.all isDomainChar = true ∧ d ≠ [] ∧ 3 ≤ u.length := by
  constructor
  · decide
  · rintro ⟨u, d, hdec, -, hda, hd, -⟩
    have hlast : ("abc@upi\n".toList).getLast? = some '\n' := by decide
    have hglast : ("abc@upi\n".toList).getLast? = some (d.getLast hd) := by
      rw [hdec, getLast?_append_right u ('@' :: d) (by simp),
        show ('@' :: d) = ['@'] ++ d from rfl,
        getLast?_append_right ['@'] d hd]
      exact List.getLast?_eq_getLast d hd
    rw [hlast] at hglast
    have hnl : '\n' = d.getLast hd := Option.some.inj hglast
    have hmem : d.getLast hd ∈ d := List.getLast_mem hd
    have hdc := List.all_eq_true.mp hda _ hmem
    rw [← hnl] at hdc
    exact absurd hdc (by decide)

/-- C6 (amended): `validate_upi_id s` returns true exactly when `s` is
    `localpart@domain` — optionally followed by one trailing newline, which
    the regex's `$` anchor tolerates — with localpart over `[A-Za-z0-9._-]`
    of length ≥ 3 and non-empty domain over `[A-Za-z0-9.-]`; in particular
    it accepts a domain outside the known-provider allow-list, and rejects
    the empty string, a string without `@`, and a localpart shorter than 3
    characters. -/
theorem validate_payment_address_spec :
    (∀ s, validate_upi_id s = true ↔
      ∃ u d, (s = u ++ '@' :: d ∨ s = u ++ '@' :: (d ++ ['\n'])) ∧
        u.all isLocalChar = true ∧ d.all isDomainChar = true ∧ d ≠ [] ∧
        3 ≤ u.length) ∧
    validate_upi_id "abc@notinallowlist".toList = true ∧
    validate_upi_id [] = false ∧
    validate_upi_id "abcupi".toList = false ∧
    validate_upi_id "ab@upi".toList = false := by
  refine ⟨validate_upi_id_iff, by decide, by decide, by decide, by decide⟩

/-- C8: `validate_amount` accepts an absent amount; a present amount is
    accepted exactly when it is ≥ 0, ≤ 1,000,000 and unchanged by rounding
    to 2 decimal places; in particular 100.005 is rejected. -/
theorem validate_amount_spec :
    validate_amount none = true ∧
    (∀ a, validate_amount (some a) = true ↔
      (0 ≤ a ∧ a ≤ 1000000 ∧ pyRound2 a = a)) ∧
    validate_amount (some ((20001 : ℚ) / 200)) = false := by
  refine ⟨rfl, validate_amount_some_iff, ?_⟩
  unfold validate_amount pyRound2 roundHalfEven
  norm_num

/-- C9: `create_upi_string` treats falsy optional fields as absent: a zero
    amount, an empty note and an empty reference each leave the
    corresponding `&am`/`&tn`/`&tr` parameter out of the produced string. -/
theorem create_upi_string_falsy_omitted :
    (∀ pa pn note ref, create_upi_string pa pn (some 0) note ref =
      create_upi_string pa pn none note ref) ∧
    (∀ pa pn amt ref, create_upi_string pa pn amt (some []) ref =
      create_upi_string pa pn amt none ref) ∧
    (∀ pa pn amt note, create_upi_string pa pn amt note (some []) =
      create_upi_string pa pn amt note none) ∧
    (∀ pa pn, create_upi_string pa pn (some 0) (some []) (some []) =
      "upi://pay?pa=".toList ++ pa ++ "&pn=".toList ++ pn) := by
  refine ⟨?_, ?_, ?_, ?_⟩
  · intro pa pn x y
    simp [create_upi_string, pyTruthyQ, pyTruthyS]
  · intro pa pn x y
    simp [create_upi_string, pyTruthyQ, pyTruthyS]
  · intro pa pn x y
    simp [create_upi_string, pyTruthyQ, pyTruthyS]
  · intro pa pn
    simp [create_upi_string, pyTruthyQ, pyTruthyS]

/-- C4: every validation failure inside `save_uploaded_logo` raises
    `HTTPException(400, …)` in the `try` body, but the enclosing
    `except Exception` swallows it and the function returns `None` —
    evaluated here at the failing input of a non-image content type. -/
theorem save_uploaded_logo_swallows_validation_error :
    saveUploadedLogoBody ⟨"text/plain".toList, "logo.txt".toList, 10⟩ =
      .error (400, "File must be an image".toList) ∧
    save_uploaded_logo ⟨"text/plain".toList, "logo.txt".toList, 10⟩ = none ∧
    saveUploadedLogoBody ⟨"image/png".toList, "logo.txt".toList, 10⟩ =
      .error (400, "Unsupported file format".toList) ∧
    save_uploaded_logo ⟨"image/png".toList, "logo.txt".toList, 10⟩ = none := by
  refine ⟨rfl, rfl, rfl, rfl⟩

/-- C5 counterexample: a string with the scheme prefix whose `am` value is
    present and unparseable makes `parse_upi_string` return the EMPTY
    result (the `float` call raises and the `except` returns `{}`), instead
    of a result carrying the other recognized fields with the amount unset
    as the claim states. -/
theorem parse_unparseable_amount_counterexample :
    startsWithL "upi://pay?".toList "upi://pay?pa=abc@upi&am=xx".toList = true ∧
    pyDictGet "pa".toList (extractParams "upi://pay?pa=abc@upi&am=xx".toList) =
      some "abc@upi".toList ∧
    parseDec "xx".toList = none ∧
    parse_upi_string "upi://pay?pa=abc@upi&am=xx".toList = none := by
  refine ⟨by decide, by decide, by decide, by decide⟩

/-- C5 (amended): when the `am` parameter is absent or empty the parse
    succeeds with the amount unset and the other fields extracted; when
    `am` is present, non-empty and unparseable, the whole result is
    discarded and the empty result is returned. -/
theorem parse_amount_behaviour :
    (∀ s, startsWithL "upi://pay?".toList s = true →
      pyDictGet "am".toList (extractParams s) = none →
      parse_upi_string s = some (mkParsed (extractParams s) none)) ∧
    (∀ s, startsWithL "upi://pay?".toList s = true →
      pyDictGet "am".toList (extractParams s) = some [] →
      parse_upi_string s = some (mkParsed (extractParams s) none)) ∧
    (∀ s v, startsWithL "upi://pay?".toList s = true →
      pyDictGet "am".toList (extractParams s) = some v → v ≠ [] →
      parseDec v = none →
      parse_upi_string s = none) := by
  exact ⟨parse_upi_am_absent, parse_upi_am_empty, parse_upi_am_bad⟩

/-- C10: for a string with the scheme prefix whose `am` parameter is absent
    or parseable, `parse_upi_string` returns a mapping carrying all six keys
    with the documented defaults (empty strings for missing `pa`/`pn`/`tn`/`tr`,
    `none` for a missing amount, `INR` for a missing currency), even when no
    recognized parameter occurs at all; and a repeated key takes its last
    occurrence. -/
theorem parse_upi_string_six_keys :
    (∀ s, startsWithL "upi://pay?".toList s = true →
      (pyDictGet "am".toList (extractParams s) = none ∨
        pyDictGet "am".toList (extractParams s) = some [] ∨
        (∃ v q, pyDictGet "am".toList (extractParams s) = some v ∧
          parseDec v = some q)) →
      ∃ r, parse_upi_string s = some r ∧
        (pyDictGet "pa".toList (extractParams s) = none → r.payee_address = []) ∧
        (pyDictGet "pn".toList (extractParams s) = none → r.payee_name = []) ∧
        (pyDictGet "am".toList (extractParams s) = none → r.amount = none) ∧
        (pyDictGet "tn".toList (extractParams s) = none → r.transaction_note = []) ∧
        (pyDictGet "tr".toList (extractParams s) = none → r.transaction_ref = []) ∧
        (pyDictGet "cu".toList (extractParams s) = none → r.currency = "INR".toList)) ∧
    parse_upi_string "upi://pay?".toList =
      some ⟨[], [], none, [], [], "INR".toList⟩ ∧
    (∀ k v ps, pyDictGet k (ps ++ [(k, v)]) = some v) := by
  have hdef : ∀ params amount,
      (pyDictGet "pa".toList params = none →
        (mkParsed params amount).payee_address = []) ∧
      (pyDictGet "pn".toList params = none →
        (mkParsed params amount).payee_name = []) ∧
      (pyDictGet "tn".toList params = none →
        (mkParsed params amount).transaction_note = []) ∧
      (pyDictGet "tr".toList params = none →
        (mkParsed params amount).transaction_ref = []) ∧
      (pyDictGet "cu".toList params = none →
        (mkParsed params amount).currency = "INR".toList) := by
    intro params amount
    refine ⟨?_, ?_, ?_, ?_, ?_⟩ <;> intro h <;>
      (try simp at h) <;> simp [mkParsed, h, decodePct_nil]
  refine ⟨?_, ?_, fun k v ps => pyDictGet_append_last k v ps⟩
  · intro s hpre ham
    rcases ham with ham | ham | ⟨v, q, ham, hq⟩
    · refine ⟨mkParsed (extractParams s) none, parse_upi_am_absent s hpre ham,
        (hdef _ _).1, (hdef _ _).2.1, fun _ => rfl, (hdef _ _).2.2.1,
        (hdef _ _).2.2.2.1, (hdef _ _).2.2.2.2⟩
    · refine ⟨mkParsed (extractParams s) none, parse_upi_am_empty s hpre ham,
        (hdef _ _).1, (hdef _ _).2.1, fun hc => ?_, (hdef _ _).2.2.1,
        (hdef _ _).2.2.2.1, (hdef _ _).2.2.2.2⟩
      rw [ham] at hc
      exact absurd hc (by simp)
    · by_cases hv : v = []
      · subst hv
        refine ⟨mkParsed (extractParams s) none, parse_upi_am_empty s hpre ham,
          (hdef _ _).1, (hdef _ _).2.1, fun hc => ?_, (hdef _ _).2.2.1,
          (hdef _ _).2.2.2.1, (hdef _ _).2.2.2.2⟩
        rw [ham] at hc
        exact absurd hc (by simp)
      · refine ⟨mkParsed (extractParams s) (some q),
          parse_upi_am_good s v q hpre ham hv hq,
          (hdef _ _).1, (hdef _ _).2.1, fun hc => ?_, (hdef _ _).2.2.1,
          (hdef _ _).2.2.2.1, (hdef _ _).2.2.2.2⟩
        rw [ham] at hc
        exact absurd hc (by simp)
  · have h1 : extractParams "upi://pay?".toList = [] := by decide
    have h2 := parse_upi_am_absent "upi://pay?".toList (by decide)
      (by rw [h1]; rfl)
    rw [h2, h1]
    simp [mkParsed, pyDictGet, decodePct_nil]

/-- The three shape-mask tags. -/
def isMaskTag (t : StageTag) : Bool :=
  t = StageTag.roundedMask || t = StageTag.circleMask || t = StageTag.diamondMask

/-- True when a `logo` tag occurs strictly before some mask tag in the
    trace (the order the spec says never happens). -/
def logoBeforeMask : List StageTag → Bool
  | [] => false
  | t :: rest =>
    if t = StageTag.logo then rest.any isMaskTag else logoBeforeMask rest

/-- Logo stage contribution to the trace of `_generate_standard_qr`. -/
def logoOpsOf (env : PILEnv) (style : QRCodeStyle) : List StageTag :=
  if (style.logo_url.isSome || style.logo_path.isSome) && !env.logoFail then
    [StageTag.logo]
  else []

/-- Shape-mask stage contribution to the trace of `_generate_standard_qr`. -/
def maskOpsOf (env : PILEnv) (style : QRCodeStyle) : List StageTag :=
  if env.maskFail then []
  else if style.style = "rounded" then [StageTag.roundedMask]
  else if style.style = "circle" then [StageTag.circleMask]
  else if style.style = "diamond" then [StageTag.diamondMask]
  else []

/-- Gradient stage contribution to the trace of `_generate_standard_qr`. -/
def gradOpsOf (env : PILEnv) (style : QRCodeStyle) : List StageTag :=
  if style.gradient && !env.gradFail then [StageTag.gradient] else []

/-- C2 counterexample: with a logo and the circle shape both requested, the
    pipeline's trace is resize, then LOGO, then the circle mask — the logo
    is composited before the shape mask is applied, not after as the claim
    states. -/
theorem style_order_counterexample :
    generate_standard_qr ⟨21, false, false, false, false⟩
        { size := 300, border := 4, box_size := 10, fill_color := "black",
          back_color := "white", logo_url := none, logo_path := some "logo.png",
          logo_size_ratio := 3 / 10, style := "circle", gradient := false,
          format := "png" } =
      .ok ⟨300, 300, [StageTag.resizeTo 300 300, StageTag.logo,
        StageTag.circleMask]⟩ ∧
    logoBeforeMask [StageTag.resizeTo 300 300, StageTag.logo,
      StageTag.circleMask] = true := by
  constructor
  · rfl
  · decide

theorem PILImage.eq_of (i j : PILImage) (h1 : i.width = j.width)
    (h2 : i.height = j.height) (h3 : i.ops = j.ops) : i = j := by
  cases i; cases j; simp_all

theorem logo_step_eta (env : PILEnv) (style : QRCodeStyle) (img : PILImage) :
    (if style.logo_url.isSome || style.logo_path.isSome then
        add_logo env.logoFail img
      else img) =
      ⟨img.width, img.height, img.ops ++ logoOpsOf env style⟩ := by
  unfold logoOpsOf
  by_cases h1 : style.logo_url.isSome || style.logo_path.isSome <;>
    by_cases h2 : env.logoFail <;>
    simp [h1, h2, add_logo]

theorem mask_step_eta (env : PILEnv) (style : QRCodeStyle) (img : PILImage) :
    (if style.style = "rounded" then apply_rounded_corners env.maskFail img
      else if style.style = "circle" then apply_circle_shape env.maskFail img
      else if style.style = "diamond" then apply_diamond_shape env.maskFail img
      else img) =
      ⟨img.width, img.height, img.ops ++ maskOpsOf env style⟩ := by
  unfold maskOpsOf
  by_cases h5 : env.maskFail <;>
    by_cases h3 : style.style = "rounded" <;>
    by_cases h4 : style.style = "circle" <;>
    by_cases h8 : style.style = "diamond" <;>
    simp [h3, h4, h5, h8, apply_rounded_corners, apply_circle_shape,
      apply_diamond_shape]

theorem grad_step_eta (env : PILEnv) (style : QRCodeStyle) (img : PILImage) :
    (if style.gradient then apply_gradient env.gradFail img else img) =
      ⟨img.width, img.height, img.ops ++ gradOpsOf env style⟩ := by
  unfold gradOpsOf
  by_cases h6 : style.gradient <;>
    by_cases h7 : env.gradFail <;>
    simp [h6, h7, apply_gradient]

theorem generate_standard_qr_eq (env : PILEnv) (style : QRCodeStyle)
    (he : env.encodeFail = false) :
    generate_standard_qr env style = .ok ⟨style.size, style.size,
      StageTag.resizeTo style.size style.size ::
        (logoOpsOf env style ++ maskOpsOf env style ++ gradOpsOf env style)⟩ := by
  unfold generate_standard_qr
  rw [if_neg (by simp [he])]
  dsimp only
  rw [logo_step_eta env style, mask_step_eta env style, grad_step_eta env style]
  simp [pilResize]

/-- C2 (amended): the styling stages are applied in the fixed order
    (1) logo overlay, (2) shape mask, (3) gradient blend — for every
    request the trace decomposes as resize, then the logo contribution,
    then the mask contribution, then the gradient contribution. -/
theorem style_pipeline_fixed_order (env : PILEnv) (style : QRCodeStyle)
    (img : PILImage) (h : generate_standard_qr env style = .ok img) :
    img.ops = StageTag.resizeTo style.size style.size ::
      (logoOpsOf env style ++ maskOpsOf env style ++ gradOpsOf env style) := by
  by_cases he : env.encodeFail
  · unfold generate_standard_qr at h
    rw [if_pos he] at h
    exact absurd h (by simp)
  · rw [generate_standard_qr_eq env style (by simp [he])] at h
    simp only [Except.ok.injEq] at h
    rw [← h]

/-- C3: each best-effort style stage returns its input image unchanged when
    its body raises, and the generation request still succeeds (returns an
    image) for every combination of stage failures, as long as the QR
    encoding itself succeeds. -/
theorem style_stage_failures_soft (env : PILEnv) (style : QRCodeStyle)
    (he : env.encodeFail = false) :
    (∀ img, apply_rounded_corners true img = img) ∧
    (∀ img, apply_circle_shape true img = img) ∧
    (∀ img, apply_diamond_shape true img = img) ∧
    (∀ img, apply_gradient true img = img) ∧
    ∃ img, generate_qr_code env style = .ok img := by
  refine ⟨fun img => by simp [apply_rounded_corners],
    fun img => by simp [apply_circle_shape],
    fun img => by simp [apply_diamond_shape],
    fun img => by simp [apply_gradient], ?_⟩
  exact ⟨_, generate_standard_qr_eq env style he⟩

/-- C3 witness: with the circle mask and the gradient both failing, the
    request still succeeds and each failing stage is the identity. -/
theorem style_stage_failures_soft_witness :
    (∀ img, apply_rounded_corners true img = img) ∧
    (∀ img, apply_circle_shape true img = img) ∧
    (∀ img, apply_diamond_shape true img = img) ∧
    (∀ img, apply_gradient true img = img) ∧
    ∃ img, generate_qr_code ⟨21, false, false, true, true⟩
      { style := "circle", gradient := true } = .ok img :=
  style_stage_failures_soft ⟨21, false, false, true, true⟩
    { style := "circle", gradient := true } rfl

/-- C7: for every size within bounds, the generated image is exactly
    size × size pixels regardless of box size, border, module count and
    which styling stages run or fail. -/
theorem generated_image_forced_square (env : PILEnv) (style : QRCodeStyle)
    (img : PILImage) (_h1 : 100 ≤ style.size) (_h2 : style.size ≤ 1000)
    (h : generate_standard_qr env style = .ok img) :
    img.width = style.size ∧ img.height = style.size := by
  by_cases he : env.encodeFail
  · unfold generate_standard_qr at h
    rw [if_pos he] at h
    exact absurd h (by simp)
  · rw [generate_standard_qr_eq env style (by simp [he])] at h
    simp only [Except.ok.injEq] at h
    rw [← h]
    exact ⟨rfl, rfl⟩

/-- C7 witness: a 300 × 300 request with unusual box size and border still
    renders at 300 × 300. -/
theorem generated_image_forced_square_witness :
    (⟨300, 300, [StageTag.resizeTo 300 300, StageTag.logo,
        StageTag.circleMask]⟩ : PILImage).width = 300 ∧
    (⟨300, 300, [StageTag.resizeTo 300 300, StageTag.logo,
        StageTag.circleMask]⟩ : PILImage).height = 300 :=
  generated_image_forced_square ⟨21, false, false, false, false⟩
    { size := 300, border := 4, box_size := 10, fill_color := "black",
      back_color := "white", logo_url := none, logo_path := some "logo.png",
      logo_size_ratio := 3 / 10, style := "circle", gradient := false,
      format := "png" }
    ⟨300, 300, [StageTag.resizeTo 300 300, StageTag.logo, StageTag.circleMask]⟩
    (by norm_num) (by norm_num) rfl

/-- C2 amended witness: with a logo and the circle mask requested and no
    failures, the trace is resize, logo, circle mask — matching the
    logo-then-mask-then-gradient decomposition. -/
theorem style_pipeline_fixed_order_witness :
    (⟨300, 300, [StageTag.resizeTo 300 300, StageTag.logo,
        StageTag.circleMask]⟩ : PILImage).ops =
      StageTag.resizeTo 300 300 ::
        (logoOpsOf ⟨21, false, false, false, false⟩
            { size := 300, border := 4, box_size := 10, fill_color := "black",
              back_color := "white", logo_url := none,
              logo_path := some "logo.png", logo_size_ratio := 3 / 10,
              style := "circle", gradient := false, format := "png" } ++
          maskOpsOf ⟨21, false, false, false, false⟩
            { size := 300, border := 4, box_size := 10, fill_color := "black",
              back_color := "white", logo_url := none,
              logo_path := some "logo.png", logo_size_ratio := 3 / 10,
              style := "circle", gradient := false, format := "png" } ++
          gradOpsOf ⟨21, false, false, false, false⟩
            { size := 300, border := 4, box_size := 10, fill_color := "black",
              back_color := "white", logo_url := none,
              logo_path := some "logo.png", logo_size_ratio := 3 / 10,
              style := "circle", gradient := false, format := "png" }) :=
  style_pipeline_fixed_order ⟨21, false, false, false, false⟩
    { size := 300, border := 4, box_size := 10, fill_color := "black",
      back_color := "white", logo_url := none, logo_path := some "logo.png",
      logo_size_ratio := 3 / 10, style := "circle", gradient := false,
      format := "png" }
    ⟨300, 300, [StageTag.resizeTo 300 300, StageTag.logo, StageTag.circleMask]⟩
    rfl

/-- C1 (amended): `parse_upi_string ∘ create_upi_string` round-trips the
    address, name, amount and note — spaces in the note surviving the `%20`
    encoding — for a validated payee address, a valid NONZERO amount, and
    non-empty name, note and reference none of which contains `&` (the note
    also containing no literal `%20`). -/
theorem upi_string_roundtrip (a n note ref : List Char) (amt : ℚ)
    (hva : validate_upi_id a = true)
    (hvamt : validate_amount (some amt) = true) (hamt : amt ≠ 0)
    (_hn : n ≠ []) (hnamp : '&' ∉ n)
    (hnote : note ≠ []) (hnoteamp : '&' ∉ note) (hpct : hasPct note = false)
    (href : ref ≠ []) (hrefamp : '&' ∉ ref) :
    parse_upi_string (create_upi_string a n (some amt) (some note) (some ref)) =
      some ⟨a, n, some amt, note, ref, "INR".toList⟩ := by
  obtain ⟨h0, -, hr2⟩ := (validate_amount_some_iff amt).mp hvamt
  have hden := den_eq_one_of_pyRound2_eq amt hr2
  have ha : '&' ∉ a :=
    validate_upi_id_chars a hva '&' (by decide) (by decide) (by decide)
      (by decide)
  exact parse_create a n amt note ref h0 hden hamt hnote href ha hnamp
    hnoteamp hrefamp hpct

/-- C1 witness: the round trip at address `abc@upi`, name `Alice`, amount
    100.5, note `hi there`, reference `r1`. -/
theorem upi_string_roundtrip_witness :
    parse_upi_string (create_upi_string "abc@upi".toList "Alice".toList
        (some ((201 : ℚ) / 2)) (some "hi there".toList) (some "r1".toList)) =
      some ⟨"abc@upi".toList, "Alice".toList, some ((201 : ℚ) / 2),
        "hi there".toList, "r1".toList, "INR".toList⟩ :=
  upi_string_roundtrip "abc@upi".toList "Alice".toList "hi there".toList
    "r1".toList ((201 : ℚ) / 2)
    (by decide)
    (by unfold validate_amount pyRound2 roundHalfEven; norm_num)
    (by norm_num)
    (by decide) (by decide) (by decide) (by decide) (by decide) (by decide)
    (by decide)

/-- C1 counterexample: the name `A&B` is a legal payee name (1–100
    characters), yet the round trip truncates it at the `&`: parsing the
    built string yields payee name `A`, not `A&B` — so the claim fails as
    stated for arbitrary valid non-empty inputs. -/
theorem upi_string_roundtrip_counterexample :
    (parse_upi_string (create_upi_string "abc@upi".toList "A&B".toList
        (some 5) (some "hi there".toList) (some "r1".toList))).map
      ParsedUPI.payee_name = some "A".toList ∧
    "A".toList ≠ "A&B".toList := by
  have h500 : ((5 : ℚ) * 100).num.toNat = 500 := by
    rw [show ((5 : ℚ) * 100).num = 500 from by norm_num]
    rfl
  have hf5 : floatStr (5 : ℚ) = ['5', '.', '0'] := by
    rw [floatStr, if_neg (by norm_num)]
    simp only [floatStrNN]
    rw [if_pos (show ((5 : ℚ) * 100).den = 1 from by norm_num)]
    rw [h500]
    rw [if_pos (show (500 : Nat) % 100 = 0 from by norm_num)]
    rw [show (500 : Nat) / 100 = 5 from by norm_num]
    rw [natDigits_small 5 (by norm_num)]
    decide
  have ht : pyTruthyQ (some (5 : ℚ)) = true := by
    simp only [pyTruthyQ]
    exact decide_eq_true (by norm_num)
  have ht2 : pyTruthyS (some "hi there".toList) = true := by decide
  have ht3 : pyTruthyS (some "r1".toList) = true := by decide
  have hcre : create_upi_string "abc@upi".toList "A&B".toList (some 5)
      (some "hi there".toList) (some "r1".toList) =
      "upi://pay?pa=abc@upi&pn=A&B&am=5.0&tn=hi%20there&tr=r1".toList := by
    simp only [create_upi_string, ht, ht2, ht3, if_true, Option.getD_some]
    rw [hf5]
    decide
  constructor
  · rw [hcre]
    decide
  · decide

/-- C5 witness: the three `am` behaviours at concrete inputs — absent,
    empty, and unparseable. -/
theorem parse_amount_behaviour_witness :
    parse_upi_string "upi://pay?pa=xyz@upi".toList =
      some (mkParsed (extractParams "upi://pay?pa=xyz@upi".toList) none) ∧
    parse_upi_string "upi://pay?pa=xyz@upi&am=".toList =
      some (mkParsed (extractParams "upi://pay?pa=xyz@upi&am=".toList) none) ∧
    parse_upi_string "upi://pay?pa=xyz@upi&am=zz".toList = none :=
  ⟨parse_amount_behaviour.1 "upi://pay?pa=xyz@upi".toList (by decide) (by decide),
   parse_amount_behaviour.2.1 "upi://pay?pa=xyz@upi&am=".toList (by decide)
     (by decide),
   parse_amount_behaviour.2.2 "upi://pay?pa=xyz@upi&am=zz".toList "zz".toList
     (by decide) (by decide) (by decide) (by decide)⟩

/-- C10 witness: a prefix-only string with one unrecognized token still
    yields a result with every key defaulted. -/
theorem parse_upi_string_six_keys_witness :
    ∃ r, parse_upi_string "upi://pay?z".toList = some r ∧
      (pyDictGet "pa".toList (extractParams "upi://pay?z".toList) = none →
        r.payee_address = []) ∧
      (pyDictGet "pn".toList (extractParams "upi://pay?z".toList) = none →
        r.payee_name = []) ∧
      (pyDictGet "am".toList (extractParams "upi://pay?z".toList) = none →
        r.amount = none) ∧
      (pyDictGet "tn".toList (extractParams "upi://pay?z".toList) = none →
        r.transaction_note = []) ∧
      (pyDictGet "tr".toList (extractParams "upi://pay?z".toList) = none →
        r.transaction_ref = []) ∧
      (pyDictGet "cu".toList (extractParams "upi://pay?z".toList) = none →
        r.currency = "INR".toList) :=
  parse_upi_string_six_keys.1 "upi://pay?z".toList (by decide) (Or.inl (by decide))
